import Mathlib

/-!
Verification development for the dotfiles manifest resolution and
aggregation engine (`build.py`, `modules_hook.py`).

The Python sources are shallowly embedded below:

* YAML/JSON configuration values become the inductive `JValue`; Python
  `dict`s (insertion ordered, unique keys) become association lists with
  the operations `dictGet`, `dictSet`, `dictPop` mirroring `d.get`,
  `d[k] = v` and `d.pop(k)`.
* `deepmerge.always_merger.merge` (strategies: dict → per-key merge,
  list → append, type conflict / scalars → override with the new value)
  becomes `alwaysMerge` / `mergeObj`.
* The per-module common/host configuration loop of `modules_hook.py`
  (`main`, the loop over `common.items()`) becomes `effectiveModules`.
* The module-selection loop of `build.py` `main` (skip `null` modules
  with a warning, reject non-mapping configs) becomes `invokedModules`.
* `is_valid_mode`, `mode_merge`, `script_filename`, the pydantic `File`
  model (default mode `0o644`, the contents/append validator) and the
  aggregation loop of `build.py` `main` (lines 296-332) become the
  correspondingly named Lean definitions.  Machine integers do not
  occur: Python integers are unbounded, so modes are `Int`, with
  `mode >> k` rendered as floor division (`Int` `/` by a positive
  constant) and `& 0o7` as `% 8`, which agree with Python's semantics
  on negative numbers as well.
* Filesystem path resolution (`Path.expanduser().resolve()` and the
  `is_relative_to(cwd)` check) depends on the ambient filesystem, so
  aggregation is parametrized by a function
  `normalize : String → Option String`; `none` means the resolved path
  does not lie inside the build root.
-/

namespace Dotfiles

/-- A YAML/JSON-like value as produced by `yaml.safe_load` / `json.loads`:
null, booleans, numbers, strings, sequences and mappings (mappings keep
Python `dict` insertion order, represented as association lists). -/
inductive JValue where
  | null : JValue
  | bool (b : Bool) : JValue
  | num (n : Int) : JValue
  | str (s : String) : JValue
  | arr (xs : List JValue) : JValue
  | obj (kvs : List (String × JValue)) : JValue

/-- `d.get(k)` on a Python dict represented as an association list. -/
def dictGet {α : Type} : List (String × α) → String → Option α
  | [], _ => none
  | (k, v) :: rest, key => if k = key then some v else dictGet rest key

/-- `d[k] = v` on a Python dict: replace the value in place if the key is
present, otherwise append the new binding at the end. -/
def dictSet {α : Type} : List (String × α) → String → α → List (String × α)
  | [], key, v => [(key, v)]
  | (k, w) :: rest, key, v =>
    if k = key then (key, v) :: rest else (k, w) :: dictSet rest key v

/-- `d.pop(k, None)` on a Python dict: remove the binding for the key. -/
def dictPop {α : Type} : List (String × α) → String → List (String × α)
  | [], _ => []
  | (k, w) :: rest, key => if k = key then rest else (k, w) :: dictPop rest key

mutual

/-- `deepmerge.always_merger.merge base nxt`: two mappings merge per key,
two sequences concatenate (`base + nxt`), and in every other case —
including a type conflict and in particular an explicit `null` on the
`nxt` side — the `nxt` value overrides the `base` value. -/
def alwaysMerge : JValue → JValue → JValue
  | JValue.obj base, JValue.obj nxt => JValue.obj (mergeObj base nxt)
  | JValue.arr base, JValue.arr nxt => JValue.arr (base ++ nxt)
  | _, nxt => nxt
termination_by _ b => sizeOf b

/-- The dict strategy of `always_merger`: walk the keys of `nxt` in order;
a key absent from `base` is appended, a key present in `base` has its two
values merged recursively in place. -/
def mergeObj (base : List (String × JValue)) :
    List (String × JValue) → List (String × JValue)
  | [] => base
  | (k, v) :: rest =>
    match dictGet base k with
    | some bv => mergeObj (dictSet base k (alwaysMerge bv v)) rest
    | none => mergeObj (base ++ [(k, v)]) rest
termination_by l => sizeOf l

end

/-- One iteration of the common/host configuration loop of
`modules_hook.py` `main` (the `for name, global_data in common.items()`
loop body): a `null` common value is skipped; if the host's module table
does not mention the name (the `""` sentinel of `modules.get(name, "")`),
the common value is installed; if the host maps the name to `null`, the
module is popped; otherwise both values are deep-merged with
`alwaysMerge`. -/
def moduleStep (modules : List (String × Option JValue))
    (entry : String × Option JValue) : List (String × Option JValue) :=
  match entry.2 with
  | none => modules
  | some gd =>
    match dictGet modules entry.1 with
    | none => dictSet modules entry.1 (some gd)
    | some none => dictPop modules entry.1
    | some (some hd) => dictSet modules entry.1 (some (alwaysMerge gd hd))

/-- The whole common/host loop: fold `moduleStep` over the common entries,
starting from the host's module table. -/
def effectiveModules (common : List (String × Option JValue))
    (host : List (String × Option JValue)) : List (String × Option JValue) :=
  common.foldl moduleStep host

/-- Modelled from the spec (§3 Module Configuration), for comparison with
the code's `alwaysMerge`: the recursive override rule in the spec's words.
Per key of the common mapping: a host value of explicit `null` removes the
key entirely; a non-mapping host value replaces the common value; two
mappings merge recursively; a key the host does not mention keeps the
common value.  Keys present only in the host are passed through. -/
def specOverrideObj (host : List (String × JValue)) :
    List (String × JValue) → List (String × JValue)
  | [] => []
  | (k, cv) :: rest =>
    match dictGet host k with
    | none => (k, cv) :: specOverrideObj host rest
    | some JValue.null => specOverrideObj host rest
    | some (JValue.obj hkvs) =>
      match cv with
      | JValue.obj ckvs => (k, JValue.obj (specOverrideObj hkvs ckvs)) :: specOverrideObj host rest
      | _ => (k, JValue.obj hkvs) :: specOverrideObj host rest
    | some hv => (k, hv) :: specOverrideObj host rest
termination_by l => sizeOf l

/-- Whether a `JValue` is a mapping (Python `isinstance(data, dict)`). -/
def JValue.isObj : JValue → Bool
  | JValue.obj _ => true
  | _ => false

/-- Whether a `JValue` is the explicit `null`. -/
def JValue.isNull : JValue → Bool
  | JValue.null => true
  | _ => false

/-- Whether a `JValue` is a sequence (Python `isinstance(data, list)`). -/
def JValue.isArr : JValue → Bool
  | JValue.arr _ => true
  | _ => false

/-- Modelled from the spec: the recursive override rule of §3 applied to a
common and a host mapping (host-only keys passed through after the common
keys, with the host `null` entries dropped). -/
def specOverrideMerge : JValue → JValue → JValue
  | JValue.obj ckvs, JValue.obj hkvs =>
    JValue.obj (specOverrideObj hkvs ckvs ++
      hkvs.filter fun e => (dictGet ckvs e.1).isNone && !e.2.isNull)
  | _, h => h

/-- The module-selection loop of `build.py` `main`
(`for name, data in host_config.items()`): a module whose config is `null`
is skipped with a warning and never invoked; a non-mapping config aborts
the build; a mapping config means the module is invoked.  The result is
the list of invoked modules with their configs, plus the warnings, or the
fatal error. -/
def invokedModules :
    List (String × Option JValue) → Except String (List (String × JValue) × List String)
  | [] => Except.ok ([], [])
  | (name, data) :: rest =>
    match data with
    | none =>
      (invokedModules rest).map fun r =>
        (r.1, ("Module '" ++ name ++ "' is set to null; skipping") :: r.2)
    | some d =>
      if d.isObj then
        (invokedModules rest).map fun r => ((name, d) :: r.1, r.2)
      else
        Except.error ("Module '" ++ name ++ "' config must be a mapping")

/-- `is_valid_mode` from `build.py` (the `ModeInt` validator): extract the
three low octal digits `u = (mode >> 6) & 0o7`, `g = (mode >> 3) & 0o7`,
`o = mode & 0o7` and require each to lie in `[4, 7]`; `some mode` on
success, `none` (a raised `ValueError`) otherwise.  Python's arithmetic
shift is floor division and `& 0o7` is `% 8` in two's complement, which is
what `Int` division and `%` by a positive constant compute in Lean. -/
def is_valid_mode (mode : Int) : Option Int :=
  let u := mode / 64 % 8
  let g := mode / 8 % 8
  let o := mode % 8
  if 4 ≤ u ∧ u ≤ 7 ∧ 4 ≤ g ∧ g ≤ 7 ∧ 4 ≤ o ∧ o ≤ 7 then some mode else none

/-- `mode_merge` from `build.py`: bitwise OR when relaxed, bitwise AND by
default. -/
def mode_merge (a b : Int) (relax : Bool) : Int :=
  if relax then Int.lor a b else Int.land a b

/-- A `Resource` of `build.py`: the discriminated union of remote, inline
and local content sources. -/
inductive Resource where
  | remote (source : String) (headers : List (List (String × String))) : Resource
  | inline (source : String) : Resource
  | loc (source : String) : Resource
deriving DecidableEq

/-- A validated `File` of `build.py`: target path, optional `contents`
resource, ordered `append` resources, and the validated permission mode. -/
structure File where
  path : String
  contents : Option Resource
  append : List Resource
  mode : Int
deriving DecidableEq

/-- The raw fields of a `File` before pydantic validation; a missing
`mode` field is `none`. -/
structure RawFile where
  path : String
  contents : Option Resource := none
  append : List Resource := []
  mode : Option Int := none

/-- Pydantic validation of a `File`: the `mode` field defaults to `0o644`
(420) and must pass `is_valid_mode`; then the `validate_contents` model
validator requires `contents` or a non-empty `append`. -/
def validateFile (r : RawFile) : Except String File :=
  match is_valid_mode (r.mode.getD 420) with
  | none => Except.error "Invalid mode"
  | some m =>
    if r.contents.isNone ∧ r.append.isEmpty then
      Except.error "either contents or append must be specified"
    else
      Except.ok ⟨r.path, r.contents, r.append, m⟩

/-- The `ScriptType` enum of `build.py`. -/
inductive ScriptType where
  | run | run_once | run_onchange | run_before | run_after
deriving DecidableEq

/-- The string value of a `ScriptType` member. -/
def ScriptType.toStr : ScriptType → String
  | .run => "run"
  | .run_once => "run_once"
  | .run_onchange => "run_onchange"
  | .run_before => "run_before"
  | .run_after => "run_after"

/-- A `Script` of `build.py`: non-empty name, type (default `run_once`),
and a content resource. -/
structure Script where
  name : String
  type : ScriptType
  content : Resource
deriving DecidableEq

/-- A `Manifest` of `build.py`: the files and scripts one module emits. -/
structure Manifest where
  files : List File
  scripts : List Script
deriving DecidableEq

/-- Python `str.strip()`: remove leading and trailing whitespace. -/
def pyStrip (s : String) : String :=
  ⟨((s.data.dropWhile Char.isWhitespace).reverse.dropWhile Char.isWhitespace).reverse⟩

/-- Python `str.endswith("_")`: whether the last character is `_`. -/
def endsWithUnderscore (s : String) : Bool :=
  match s.data.getLast? with
  | some c => c = '_'
  | none => false

/-- Python `s[:-1]`: the string without its last character. -/
def dropLastChar (s : String) : String :=
  ⟨s.data.dropLast⟩

/-- `script_filename` from `build.py`: the script type with any trailing
underscore stripped, then `_`, then the name, then `.sh`. -/
def script_filename (s : Script) : String :=
  let t := s.type.toStr
  let pre := if endsWithUnderscore t then dropLastChar t else t
  pre ++ "_" ++ s.name ++ ".sh"

/-- The captured result of a finished module subprocess. -/
structure ProcResult where
  returncode : Int
  stdout : String
  stderr : String

/-- The failure modes of `run_module` in `build.py` (each a raised
`ValueError` there): non-zero exit, empty output on success, or module
output that fails manifest validation. -/
inductive ModuleError where
  | execFailed (code : Int) (diag : String) : ModuleError
  | noOutput : ModuleError
  | invalidManifest (msg : String) : ModuleError
deriving DecidableEq

/-- `run_module` from `build.py`, over a finished subprocess result.
`check=True` turns a non-zero exit into `CalledProcessError`, re-raised
with the exit code and the stripped error stream; stripped stderr text is
logged as a warning; empty stripped stdout is an error; otherwise the
stdout is validated as a `Manifest` (`Manifest.model_validate_json`,
abstracted here as the `parse` argument since JSON decoding is not part of
this engine).  Returns the warnings together with the outcome. -/
def run_module (parse : String → Except String Manifest) (moduleName : String)
    (r : ProcResult) : List String × Except ModuleError Manifest :=
  if r.returncode ≠ 0 then
    ([], Except.error (ModuleError.execFailed r.returncode (pyStrip r.stderr)))
  else
    let out := pyStrip r.stdout
    let err := pyStrip r.stderr
    let ws := if err ≠ "" then
        ["Module '" ++ moduleName ++ "' produced stderr output:\n" ++ err]
      else []
    if out = "" then (ws, Except.error ModuleError.noOutput)
    else
      match parse out with
      | Except.ok m => (ws, Except.ok m)
      | Except.error e => (ws, Except.error (ModuleError.invalidManifest e))

/-- The Global Plan under construction: `file_sources` and
`script_sources` from `build.py` `main`, keyed by normalized relative path
and by derived script filename. -/
structure Plan where
  files : List (String × File)
  scripts : List (String × Script)
deriving DecidableEq

/-- The fatal aggregation errors of `build.py` `main`. -/
inductive AggError where
  | contentConflict (path moduleName : String) : AggError
  | dupScript (name moduleName : String) : AggError
deriving DecidableEq

/-- The aggregation state: the plan plus the accumulated warnings. -/
abbrev AggState := Plan × List String

/-- The in-place merge `build.py` performs on an existing `File` when a
second `File` arrives at the same normalized path (after the conflict
check): adopt the incoming `contents` if present, concatenate the
`append` sequences, and merge the modes with the default policy. -/
def mergeFile (current incoming : File) : File :=
  { current with
    contents := if incoming.contents.isSome then incoming.contents else current.contents
    append := current.append ++ incoming.append
    mode := mode_merge current.mode incoming.mode false }

/-- One `File` step of the aggregation loop in `build.py` `main` (lines
300-323): normalize the path — if it does not resolve inside the build
root, warn and skip; if the path is new, insert the file; if both the
existing and the incoming file have `contents`, abort with a content
conflict; otherwise merge in place. -/
def aggFile (normalize : String → Option String) (moduleName : String)
    (st : AggState) (file : File) : Except AggError AggState :=
  match normalize file.path with
  | none =>
    Except.ok (st.1,
      st.2 ++ ["Skipping absolute path " ++ file.path ++ " (not supported yet)"])
  | some path =>
    match dictGet st.1.files path with
    | some current =>
      if file.contents.isSome ∧ current.contents.isSome then
        Except.error (AggError.contentConflict path moduleName)
      else
        Except.ok ({ st.1 with files := dictSet st.1.files path (mergeFile current file) }, st.2)
    | none =>
      Except.ok ({ st.1 with files := st.1.files ++ [(path, file)] }, st.2)

/-- One `Script` step of the aggregation loop in `build.py` `main` (lines
325-332): a derived filename already present is a fatal duplicate,
otherwise insert. -/
def aggScript (moduleName : String) (st : AggState) (s : Script) :
    Except AggError AggState :=
  let nm := script_filename s
  if (dictGet st.1.scripts nm).isSome then
    Except.error (AggError.dupScript nm moduleName)
  else
    Except.ok ({ st.1 with scripts := st.1.scripts ++ [(nm, s)] }, st.2)

/-- Fold one module's validated `Manifest` into the plan: all its files in
order, then all its scripts in order. -/
def aggModule (normalize : String → Option String) (st : AggState)
    (mo : String × Manifest) : Except AggError AggState := do
  let st1 ← mo.2.files.foldlM (aggFile normalize mo.1) st
  mo.2.scripts.foldlM (aggScript mo.1) st1

/-- The whole aggregation phase of `build.py` `main`: fold every module's
manifest, in module-processing order, into an initially empty plan. -/
def aggregate (normalize : String → Option String)
    (manifests : List (String × Manifest)) : Except AggError AggState :=
  manifests.foldlM (aggModule normalize) (⟨[], []⟩, [])

/-- Whether a `run_module` outcome is one of the two invocation failures
of the invoker contract (non-zero exit, or empty output on success), as
opposed to the separate manifest-validation failure. -/
def invocationFailure : Except ModuleError Manifest → Bool
  | Except.error (ModuleError.execFailed _ _) => true
  | Except.error ModuleError.noOutput => true
  | _ => false

/-- How many of the given files specify `contents`. -/
def nSome (fs : List File) : Nat :=
  fs.countP fun f => f.contents.isSome

theorem dictGet_eq_none_iff {α : Type} (l : List (String × α)) (k : String) :
    dictGet l k = none ↔ k ∉ l.map Prod.fst := by
  induction l with
  | nil => simp [dictGet]
  | cons e rest ih =>
    obtain ⟨ek, ev⟩ := e
    by_cases he : ek = k
    · subst he; simp [dictGet]
    · simp [dictGet, he, ih, Ne.symm he]

theorem dictGet_dictSet_self {α : Type} (l : List (String × α)) (k : String) (v : α) :
    dictGet (dictSet l k v) k = some v := by
  induction l with
  | nil => simp [dictGet, dictSet]
  | cons e rest ih =>
    obtain ⟨ek, ev⟩ := e
    by_cases he : ek = k
    · subst he; simp [dictGet, dictSet]
    · simp [dictGet, dictSet, he, ih]

theorem dictGet_dictSet_ne {α : Type} (l : List (String × α)) (k k' : String) (v : α)
    (h : k ≠ k') : dictGet (dictSet l k v) k' = dictGet l k' := by
  induction l with
  | nil => simp [dictGet, dictSet, h]
  | cons e rest ih =>
    obtain ⟨ek, ev⟩ := e
    by_cases he : ek = k
    · subst he; simp [dictGet, dictSet, h]
    · simp [dictGet, dictSet, he, ih]

theorem dictGet_dictPop_ne {α : Type} (l : List (String × α)) (k k' : String)
    (h : k ≠ k') : dictGet (dictPop l k) k' = dictGet l k' := by
  induction l with
  | nil => simp [dictGet, dictPop]
  | cons e rest ih =>
    obtain ⟨ek, ev⟩ := e
    by_cases he : ek = k
    · subst he; simp [dictGet, dictPop, h]
    · simp [dictGet, dictPop, he, ih]

theorem dictPop_sublist {α : Type} (l : List (String × α)) (k : String) :
    (dictPop l k).Sublist l := by
  induction l with
  | nil => simp [dictPop]
  | cons e rest ih =>
    obtain ⟨ek, ev⟩ := e
    by_cases he : ek = k
    · simp only [dictPop, if_pos he]
      exact List.sublist_cons_self _ _
    · simpa [dictPop, he] using ih.cons₂ (ek, ev)

theorem dictGet_dictPop_self {α : Type} (l : List (String × α)) (k : String)
    (h : (l.map Prod.fst).Nodup) : dictGet (dictPop l k) k = none := by
  induction l with
  | nil => simp [dictGet, dictPop]
  | cons e rest ih =>
    obtain ⟨ek, ev⟩ := e
    simp only [List.map_cons, List.nodup_cons] at h
    by_cases he : ek = k
    · subst he
      simp only [dictPop, if_pos rfl]
      exact (dictGet_eq_none_iff rest ek).mpr h.1
    · simp [dictGet, dictPop, he, ih h.2]

theorem keys_dictSet {α : Type} (l : List (String × α)) (k : String) (v : α) :
    (dictSet l k v).map Prod.fst =
      if (dictGet l k).isSome then l.map Prod.fst else l.map Prod.fst ++ [k] := by
  induction l with
  | nil => simp [dictGet, dictSet]
  | cons e rest ih =>
    obtain ⟨ek, ev⟩ := e
    by_cases he : ek = k
    · subst he; simp [dictGet, dictSet]
    · simp only [dictSet, if_neg he, dictGet, List.map_cons, ih]
      split <;> simp

theorem nodup_keys_dictSet {α : Type} (l : List (String × α)) (k : String) (v : α)
    (h : (l.map Prod.fst).Nodup) : ((dictSet l k v).map Prod.fst).Nodup := by
  rw [keys_dictSet]
  split
  · exact h
  · refine List.Nodup.append h (List.nodup_singleton k) ?_
    intro x hx hk
    rw [List.mem_singleton] at hk
    subst hk
    rename_i hnone
    rw [Option.not_isSome_iff_eq_none] at hnone
    exact (dictGet_eq_none_iff l x).mp hnone hx

theorem nodup_keys_dictPop {α : Type} (l : List (String × α)) (k : String)
    (h : (l.map Prod.fst).Nodup) : ((dictPop l k).map Prod.fst).Nodup :=
  ((dictPop_sublist l k).map Prod.fst).nodup h

theorem moduleStep_get_ne (l : List (String × Option JValue))
    (e : String × Option JValue) (n : String) (h : e.1 ≠ n) :
    dictGet (moduleStep l e) n = dictGet l n := by
  obtain ⟨m, d⟩ := e
  simp only at h
  cases d with
  | none => rfl
  | some gd =>
    simp only [moduleStep]
    cases hg : dictGet l m with
    | none => exact dictGet_dictSet_ne l m n _ h
    | some o =>
      cases o with
      | none => exact dictGet_dictPop_ne l m n h
      | some hd => exact dictGet_dictSet_ne l m n _ h

theorem nodup_keys_moduleStep (l : List (String × Option JValue))
    (e : String × Option JValue) (h : (l.map Prod.fst).Nodup) :
    ((moduleStep l e).map Prod.fst).Nodup := by
  obtain ⟨m, d⟩ := e
  cases d with
  | none => exact h
  | some gd =>
    simp only [moduleStep]
    cases hg : dictGet l m with
    | none => exact nodup_keys_dictSet l m _ h
    | some o =>
      cases o with
      | none => exact nodup_keys_dictPop l m h
      | some hd => exact nodup_keys_dictSet l m _ h

theorem effectiveModules_get_ne (common host : List (String × Option JValue))
    (n : String) (h : ∀ e ∈ common, e.1 ≠ n) :
    dictGet (effectiveModules common host) n = dictGet host n := by
  induction common generalizing host with
  | nil => rfl
  | cons e rest ih =>
    have : effectiveModules (e :: rest) host = effectiveModules rest (moduleStep host e) := rfl
    rw [this, ih _ fun x hx => h x (List.mem_cons_of_mem _ hx),
      moduleStep_get_ne _ _ _ (h e (List.mem_cons_self _ _))]

theorem nodup_keys_effectiveModules (common host : List (String × Option JValue))
    (h : (host.map Prod.fst).Nodup) :
    ((effectiveModules common host).map Prod.fst).Nodup := by
  induction common generalizing host with
  | nil => exact h
  | cons e rest ih => exact ih _ (nodup_keys_moduleStep host e h)

theorem invokedModules_mem (l : List (String × Option JValue))
    (ms : List (String × JValue)) (ws : List String)
    (h : invokedModules l = Except.ok (ms, ws)) :
    ∀ x ∈ ms, (x.1, some x.2) ∈ l := by
  induction l generalizing ms ws with
  | nil =>
    simp only [invokedModules, Except.ok.injEq] at h
    cases h
    intro x hx
    cases hx
  | cons e rest ih =>
    obtain ⟨name, data⟩ := e
    cases data with
    | none =>
      simp only [invokedModules] at h
      cases hr : invokedModules rest with
      | error err => rw [hr] at h; cases h
      | ok r =>
        rw [hr] at h
        simp only [Except.map, Except.ok.injEq] at h
        cases h
        intro x hx
        exact List.mem_cons_of_mem _ (ih r.1 r.2 (by rw [hr]) x hx)
    | some d =>
      by_cases hobj : d.isObj
      · simp only [invokedModules, hobj, if_pos] at h
        cases hr : invokedModules rest with
        | error err => rw [hr] at h; cases h
        | ok r =>
          rw [hr] at h
          simp only [Except.map, Except.ok.injEq] at h
          cases h
          intro x hx
          rcases List.mem_cons.mp hx with hx1 | hx1
          · rw [hx1]; exact List.mem_cons_self _ _
          · exact List.mem_cons_of_mem _ (ih r.1 r.2 (by rw [hr]) x hx1)
      · simp only [invokedModules, hobj, if_neg] at h
        cases h

theorem aggModule_single (normalize : String → Option String) (m : String)
    (st : AggState) (f : File) :
    aggModule normalize st (m, ⟨[f], []⟩) = aggFile normalize m st f := by
  cases h : aggFile normalize m st f with
  | error e => simp [aggModule, List.foldlM, h, Bind.bind, Except.bind]
  | ok st' =>
    simp [aggModule, List.foldlM, h, Bind.bind, Except.bind, Pure.pure, Except.pure]

theorem foldl_mergeFile_append (cur : File) (fs : List File) :
    (fs.foldl mergeFile cur).append = cur.append ++ (fs.map File.append).flatten := by
  induction fs generalizing cur with
  | nil => simp
  | cons f rest ih => simp [List.foldl_cons, ih, mergeFile]

theorem foldl_mergeFile_mode (cur : File) (fs : List File) :
    (fs.foldl mergeFile cur).mode =
      fs.foldl (fun a f => mode_merge a f.mode false) cur.mode := by
  induction fs generalizing cur with
  | nil => rfl
  | cons f rest ih => simp [List.foldl_cons, ih, mergeFile]

theorem foldl_mergeFile_contents_none (cur : File) (fs : List File)
    (h : ∀ f ∈ fs, f.contents.isSome = false) :
    (fs.foldl mergeFile cur).contents = cur.contents := by
  induction fs generalizing cur with
  | nil => rfl
  | cons f rest ih =>
    have hf := h f (List.mem_cons_self _ _)
    have hm : (mergeFile cur f).contents = cur.contents := by simp [mergeFile, hf]
    simp only [List.foldl_cons]
    rw [ih _ fun g hg => h g (List.mem_cons_of_mem _ hg), hm]

theorem foldl_mergeFile_contents_some (fs : List File) (g : File) :
    ∀ cur : File, g ∈ fs → g.contents.isSome = true → nSome fs ≤ 1 →
    (fs.foldl mergeFile cur).contents = g.contents := by
  induction fs with
  | nil => intro cur hg _ _; cases hg
  | cons f rest ih =>
    intro cur hg hgs hone
    have hc : nSome (f :: rest) =
        nSome rest + (if f.contents.isSome then 1 else 0) := by
      simp [nSome, List.countP_cons]
    rcases List.mem_cons.mp hg with h1 | h1
    · subst h1
      have hrest : ∀ x ∈ rest, x.contents.isSome = false := by
        intro x hx
        cases hxx : x.contents.isSome with
        | false => rfl
        | true =>
          exfalso
          have h2 : 0 < nSome rest := List.countP_pos_iff.mpr ⟨x, hx, hxx⟩
          rw [hc, if_pos hgs] at hone
          omega
      simp only [List.foldl_cons]
      rw [foldl_mergeFile_contents_none _ _ hrest]
      simp [mergeFile, hgs]
    · have hf : f.contents.isSome = false := by
        cases hff : f.contents.isSome with
        | false => rfl
        | true =>
          exfalso
          have h2 : 0 < nSome rest := List.countP_pos_iff.mpr ⟨g, h1, hgs⟩
          rw [hc, if_pos hff] at hone
          omega
      have hone' : nSome rest ≤ 1 := by rw [hc, if_neg (by simp [hf])] at hone; omega
      simp only [List.foldl_cons]
      exact ih (mergeFile cur f) h1 hgs hone'

theorem agg_same_path (normalize : String → Option String) (p : String)
    (fs : List File) :
    ∀ (cur : File) (ws : List String),
    (∀ f ∈ fs, normalize f.path = some p) →
    ((if cur.contents.isSome then 1 else 0) + nSome fs ≤ 1) →
    (fs.map fun f => (("m" : String), (⟨[f], []⟩ : Manifest))).foldlM
        (aggModule normalize) ((⟨[(p, cur)], []⟩ : Plan), ws)
      = Except.ok (⟨[(p, fs.foldl mergeFile cur)], []⟩, ws) := by
  induction fs with
  | nil => intro cur ws _ _; rfl
  | cons f rest ih =>
    intro cur ws hall hone
    have hc : nSome (f :: rest) =
        nSome rest + (if f.contents.isSome then 1 else 0) := by
      simp [nSome, List.countP_cons]
    have hf : normalize f.path = some p := hall f (List.mem_cons_self _ _)
    have hnc : ¬(f.contents.isSome = true ∧ cur.contents.isSome = true) := by
      rintro ⟨h1, h2⟩
      rw [if_pos h2, hc, if_pos h1] at hone
      omega
    have hstep : aggFile normalize "m" ((⟨[(p, cur)], []⟩ : Plan), ws) f =
        Except.ok (⟨[(p, mergeFile cur f)], []⟩, ws) := by
      simp [aggFile, hf, dictGet, dictSet, hnc]
    have hone' : (if (mergeFile cur f).contents.isSome then 1 else 0) +
        nSome rest ≤ 1 := by
      by_cases h1 : f.contents.isSome
      · have hm : (mergeFile cur f).contents.isSome := by simp [mergeFile, h1]
        rw [if_pos hm]
        rw [hc, if_pos h1] at hone
        split at hone <;> omega
      · have hm : (mergeFile cur f).contents = cur.contents := by
          simp [mergeFile, h1]
        rw [hm]
        rw [hc, if_neg h1] at hone
        omega
    rw [List.map_cons, List.foldlM_cons, aggModule_single, hstep]
    exact ih (mergeFile cur f) ws
      (fun x hx => hall x (List.mem_cons_of_mem _ hx)) hone'

/-- Claim C5: for every Script, the derived filename equals the script's
type with any trailing underscore stripped, then an underscore, then the
script's name, then the suffix `.sh`; since no member of the `ScriptType`
enum ends in an underscore, this is always the plain type string followed
by `_`, the name and `.sh`; in particular type `run_once` with name
`setup` yields `run_once_setup.sh`. -/
theorem c5_script_filename :
    (∀ s : Script,
      script_filename s =
        (if endsWithUnderscore s.type.toStr then dropLastChar s.type.toStr
          else s.type.toStr) ++ "_" ++ s.name ++ ".sh")
    ∧ (∀ s : Script, script_filename s = s.type.toStr ++ "_" ++ s.name ++ ".sh")
    ∧ script_filename ⟨"setup", ScriptType.run_once, Resource.inline "echo"⟩
        = "run_once_setup.sh" := by
  refine ⟨fun s => rfl, fun s => ?_, by decide⟩
  obtain ⟨n, t, c⟩ := s
  cases t <;> rfl

/-- Claim C6 counterexample: the mode `0o4644` (decimal 2468) has its
set-uid bit set — `(mode >> 11) & 1 = 1` — and each of its three low
octal digits in `[4,7]`, and `is_valid_mode` accepts it, so an accepted
mode can encode a set-id bit. -/
theorem c6_mode_cex :
    is_valid_mode 2468 = some 2468 ∧ (2468 : Int) / 2048 % 2 = 1 := by
  exact ⟨by decide, by decide⟩

/-- Claim C6 (amended): a mode is accepted by the validator exactly when
each of the three LOW octal digits (owner/group/other, `(mode >> 6) & 7`,
`(mode >> 3) & 7`, `mode & 7`) lies in `[4,7]` — so within the permission
triplet no principal is ever left without read access, and any mode whose
triplet violates this is rejected; but bits above the low nine (the
set-id/sticky bits) are never inspected, so acceptance is invariant under
adding any multiple of `0o1000`. -/
theorem c6_mode_amended :
    (∀ m : Int, (is_valid_mode m).isSome ↔
      (4 ≤ m / 64 % 8 ∧ m / 64 % 8 ≤ 7 ∧ 4 ≤ m / 8 % 8 ∧ m / 8 % 8 ≤ 7 ∧
        4 ≤ m % 8 ∧ m % 8 ≤ 7))
    ∧ (∀ m : Int, is_valid_mode m = some m ∨ is_valid_mode m = none)
    ∧ (∀ m k : Int,
        (is_valid_mode (m + 512 * k)).isSome = (is_valid_mode m).isSome) := by
  refine ⟨fun m => ?_, fun m => ?_, fun m k => ?_⟩
  · by_cases h : (4 ≤ m / 64 % 8 ∧ m / 64 % 8 ≤ 7 ∧ 4 ≤ m / 8 % 8 ∧
        m / 8 % 8 ≤ 7 ∧ 4 ≤ m % 8 ∧ m % 8 ≤ 7) <;>
      simp [is_valid_mode, h]
  · simp only [is_valid_mode]
    split
    · exact Or.inl rfl
    · exact Or.inr rfl
  · have h1 : (m + 512 * k) / 64 % 8 = m / 64 % 8 := by omega
    have h2 : (m + 512 * k) / 8 % 8 = m / 8 % 8 := by omega
    have h3 : (m + 512 * k) % 8 = m % 8 := by omega
    simp only [is_valid_mode, h1, h2, h3]
    split <;> rfl

/-- Claim C9: a File whose path does not resolve inside the build root
(here: `normalize` returns `none`) is recorded as a warning and skipped —
the plan, files and scripts alike, is left exactly as it was — and the
remaining files of the manifest are processed from that unchanged plan. -/
theorem c9_out_of_root_skip (normalize : String → Option String)
    (moduleName : String) (st : AggState) (f : File)
    (h : normalize f.path = none) :
    aggFile normalize moduleName st f =
      Except.ok (st.1,
        st.2 ++ ["Skipping absolute path " ++ f.path ++ " (not supported yet)"])
    ∧ ∀ fs ss, aggModule normalize st (moduleName, ⟨f :: fs, ss⟩) =
        aggModule normalize
          (st.1, st.2 ++ ["Skipping absolute path " ++ f.path ++ " (not supported yet)"])
          (moduleName, ⟨fs, ss⟩) := by
  constructor
  · simp [aggFile, h]
  · intro fs ss
    simp only [aggModule, List.foldlM_cons, aggFile, h]
    rfl

/-- Witness for C9 at a concrete out-of-root file. -/
theorem c9_out_of_root_skip_w :
    ((fun _ => (none : Option String)) "/etc/passwd" = none)
    ∧ aggFile (fun _ => none) "git" ((⟨[], []⟩ : Plan), [])
        ⟨"/etc/passwd", none, [Resource.inline "x"], 420⟩ =
      Except.ok ((⟨[], []⟩ : Plan),
        [] ++ ["Skipping absolute path " ++ "/etc/passwd" ++ " (not supported yet)"]) :=
  ⟨rfl, (c9_out_of_root_skip (fun _ => none) "git" (⟨[], []⟩, [])
    ⟨"/etc/passwd", none, [Resource.inline "x"], 420⟩ rfl).1⟩

/-- Claim C10: a manifest File that omits `mode` is validated with the
default mode `0o644` (420), and validation then proceeds exactly as if
the File had specified `0o644` explicitly — so the default participates
in downstream mode merging like an explicit mode. -/
theorem c10_default_mode (r : RawFile) (hm : r.mode = none)
    (hc : ¬(r.contents.isNone ∧ r.append.isEmpty)) :
    validateFile r = Except.ok ⟨r.path, r.contents, r.append, 420⟩
    ∧ validateFile r = validateFile { r with mode := some 420 } := by
  have h420 : is_valid_mode 420 = some 420 := by decide
  constructor
  · simp only [validateFile, hm, Option.getD_none, h420]
    rw [if_neg hc]
  · simp [validateFile, hm, h420]

/-- Witness for C10 at a concrete File with no `mode` field. -/
theorem c10_default_mode_w :
    (⟨"f", none, [Resource.inline "x"], none⟩ : RawFile).mode = none
    ∧ ¬((⟨"f", none, [Resource.inline "x"], none⟩ : RawFile).contents.isNone
        ∧ (⟨"f", none, [Resource.inline "x"], none⟩ : RawFile).append.isEmpty)
    ∧ validateFile ⟨"f", none, [Resource.inline "x"], none⟩ =
        Except.ok ⟨"f", none, [Resource.inline "x"], 420⟩ :=
  ⟨rfl, by decide,
    (c10_default_mode ⟨"f", none, [Resource.inline "x"], none⟩ rfl (by decide)).1⟩

/-- Claim C8: a module invocation fails exactly when the module exits
non-zero (and then the error carries the exit code and the stripped error
stream) or exits zero with empty (stripped) output; diagnostic text on the
error stream with a zero exit code and non-empty output never produces an
invocation failure — it is surfaced only as a warning.  (A manifest that
fails validation afterwards is the validator's separate failure mode, not
an invocation failure.) -/
theorem c8_run_module (parse : String → Except String Manifest)
    (moduleName : String) (r : ProcResult) :
    (invocationFailure (run_module parse moduleName r).2 = true ↔
      (r.returncode ≠ 0 ∨ pyStrip r.stdout = ""))
    ∧ (r.returncode ≠ 0 →
        (run_module parse moduleName r).2 =
          Except.error (ModuleError.execFailed r.returncode (pyStrip r.stderr)))
    ∧ (r.returncode = 0 → pyStrip r.stdout ≠ "" →
        (run_module parse moduleName r).1 =
          (if pyStrip r.stderr ≠ "" then
            ["Module '" ++ moduleName ++ "' produced stderr output:\n" ++ pyStrip r.stderr]
          else [])
        ∧ invocationFailure (run_module parse moduleName r).2 = false) := by
  by_cases hr : r.returncode = 0
  · by_cases ho : pyStrip r.stdout = ""
    · refine ⟨?_, fun hcon => absurd hr hcon, fun _ hcon => absurd ho hcon⟩
      simp [run_module, invocationFailure, hr, ho]
    · refine ⟨?_, fun hcon => absurd hr hcon, fun _ _ => ?_⟩
      · cases hp : parse (pyStrip r.stdout) <;>
          simp [run_module, invocationFailure, hr, ho, hp]
      · cases hp : parse (pyStrip r.stdout) <;>
          simp [run_module, invocationFailure, hr, ho, hp]
  · refine ⟨?_, fun _ => ?_, fun hcon => absurd hcon hr⟩
    · simp [run_module, invocationFailure, hr]
    · simp [run_module, hr]

/-- Witness for C8: a module that exits zero, emits output and writes
diagnostics to its error stream is not an invocation failure and yields
exactly the stderr warning. -/
theorem c8_run_module_w :
    ((3 : Int) ≠ 0 ∧
      (run_module (fun _ => Except.error "bad") "git" ⟨3, "", "boom"⟩).2 =
        Except.error (ModuleError.execFailed 3 (pyStrip "boom")))
    ∧ ((0 : Int) = 0 ∧ pyStrip "{}" ≠ "" ∧
      ((run_module (fun _ => Except.error "bad") "git" ⟨0, "{}", "warn"⟩).1 =
          (if pyStrip "warn" ≠ "" then
            ["Module '" ++ "git" ++ "' produced stderr output:\n" ++ pyStrip "warn"]
          else [])
        ∧ invocationFailure
            (run_module (fun _ => Except.error "bad") "git" ⟨0, "{}", "warn"⟩).2 = false)) := by
  refine ⟨⟨by decide, ?_⟩, rfl, by decide, ?_⟩
  · exact (c8_run_module (fun _ => Except.error "bad") "git" ⟨3, "", "boom"⟩).2.1 (by decide)
  · exact (c8_run_module (fun _ => Except.error "bad") "git" ⟨0, "{}", "warn"⟩).2.2 rfl (by decide)

/-- Claim C4: two scripts whose derived filenames coincide — whether they
come from two different modules or from the same module — make
aggregation abort with a fatal duplicate error; scripts are never
merged. -/
theorem c4_dup_script (normalize : String → Option String) (m₁ m₂ : String)
    (s₁ s₂ : Script) (h : script_filename s₁ = script_filename s₂) :
    aggregate normalize [(m₁, ⟨[], [s₁]⟩), (m₂, ⟨[], [s₂]⟩)] =
      Except.error (AggError.dupScript (script_filename s₂) m₂)
    ∧ aggregate normalize [(m₁, ⟨[], [s₁, s₂]⟩)] =
      Except.error (AggError.dupScript (script_filename s₂) m₁) := by
  constructor
  · simp [aggregate, aggModule, aggScript, List.foldlM, dictGet, h,
      Bind.bind, Except.bind, Pure.pure, Except.pure]
  · simp [aggregate, aggModule, aggScript, List.foldlM, dictGet, h,
      Bind.bind, Except.bind, Pure.pure, Except.pure]

/-- Witness for C4 at two concrete scripts deriving `run_once_setup.sh`. -/
theorem c4_dup_script_w :
    script_filename ⟨"setup", ScriptType.run_once, Resource.inline "a"⟩ =
      script_filename ⟨"setup", ScriptType.run_once, Resource.inline "b"⟩
    ∧ aggregate (fun p => some p)
        [("git", ⟨[], [⟨"setup", ScriptType.run_once, Resource.inline "a"⟩]⟩),
         ("ssh", ⟨[], [⟨"setup", ScriptType.run_once, Resource.inline "b"⟩]⟩)] =
      Except.error (AggError.dupScript
        (script_filename ⟨"setup", ScriptType.run_once, Resource.inline "b"⟩) "ssh") :=
  ⟨rfl,
    (c4_dup_script (fun p => some p) "git" "ssh"
      ⟨"setup", ScriptType.run_once, Resource.inline "a"⟩
      ⟨"setup", ScriptType.run_once, Resource.inline "b"⟩ rfl).1⟩

/-- Claim C1: two files from two modules whose paths normalize to the same
location, both specifying `contents`, make aggregation abort with a fatal
content-conflict error, in either module-processing order. -/
theorem c1_content_conflict (normalize : String → Option String) (p : String)
    (m₁ m₂ : String) (f g : File)
    (hf : normalize f.path = some p) (hg : normalize g.path = some p)
    (hfc : f.contents.isSome) (hgc : g.contents.isSome) :
    aggregate normalize [(m₁, ⟨[f], []⟩), (m₂, ⟨[g], []⟩)] =
      Except.error (AggError.contentConflict p m₂)
    ∧ aggregate normalize [(m₂, ⟨[g], []⟩), (m₁, ⟨[f], []⟩)] =
      Except.error (AggError.contentConflict p m₁) := by
  constructor
  · simp [aggregate, aggModule, aggFile, List.foldlM, dictGet, hf, hg, hfc, hgc,
      Bind.bind, Except.bind, Pure.pure, Except.pure]
  · simp [aggregate, aggModule, aggFile, List.foldlM, dictGet, hf, hg, hfc, hgc,
      Bind.bind, Except.bind, Pure.pure, Except.pure]

/-- Witness for C1 at two concrete conflicting files. -/
theorem c1_content_conflict_w :
    (fun _ => some "conf") "a" = some "conf"
    ∧ (fun _ => some "conf") "b" = some "conf"
    ∧ (some (Resource.inline "x")).isSome
    ∧ (some (Resource.inline "y")).isSome
    ∧ aggregate (fun _ => some "conf")
        [("git", ⟨[⟨"a", some (Resource.inline "x"), [], 420⟩], []⟩),
         ("ssh", ⟨[⟨"b", some (Resource.inline "y"), [], 420⟩], []⟩)] =
      Except.error (AggError.contentConflict "conf" "ssh") :=
  ⟨rfl, rfl, rfl, rfl,
    (c1_content_conflict (fun _ => some "conf") "conf" "git" "ssh"
      ⟨"a", some (Resource.inline "x"), [], 420⟩
      ⟨"b", some (Resource.inline "y"), [], 420⟩ rfl rfl rfl rfl).1⟩

/-- Claim C7: a module whose host value is null is removed from the
effective module set and never invoked, with only a warning, and
processing continues.  In `build.py`: a null entry contributes exactly one
warning while the remaining entries are processed unchanged, and the
module's name is not among the invoked modules when no other entry
supplies it a config.  In `modules_hook.py`: a common module whose host
value is null is popped from the module table, so it is absent from the
effective set. -/
theorem c7_null_module_skipped :
    (∀ (n : String) (rest : List (String × Option JValue)),
      invokedModules ((n, none) :: rest) =
        (invokedModules rest).map fun r =>
          (r.1, ("Module '" ++ n ++ "' is set to null; skipping") :: r.2))
    ∧ (∀ (n : String) (rest : List (String × Option JValue))
        (ms : List (String × JValue)) (ws : List String),
        (∀ d, ((n, d) : String × Option JValue) ∈ rest → d = none) →
        invokedModules ((n, none) :: rest) = Except.ok (ms, ws) →
        n ∉ ms.map Prod.fst)
    ∧ (∀ (c₁ c₂ host : List (String × Option JValue)) (n : String) (gd : JValue),
        (∀ e ∈ c₁, e.1 ≠ n) → (∀ e ∈ c₂, e.1 ≠ n) →
        (host.map Prod.fst).Nodup → dictGet host n = some none →
        dictGet (effectiveModules (c₁ ++ (n, some gd) :: c₂) host) n = none) := by
  refine ⟨fun n rest => rfl, fun n rest ms ws hrest h hmem => ?_,
    fun c₁ c₂ host n gd h₁ h₂ hnd hget => ?_⟩
  · rw [List.mem_map] at hmem
    obtain ⟨x, hx, hx1⟩ := hmem
    have := invokedModules_mem _ _ _ h x hx
    rcases List.mem_cons.mp this with h1 | h1
    · cases h1
    · rw [hx1] at h1
      exact Option.noConfusion (hrest (some x.2) h1)
  · have hsplit : effectiveModules (c₁ ++ (n, some gd) :: c₂) host =
        effectiveModules c₂ (moduleStep (effectiveModules c₁ host) (n, some gd)) := by
      simp [effectiveModules, List.foldl_append]
    rw [hsplit,
      effectiveModules_get_ne c₂ _ n h₂]
    have hc1 : dictGet (effectiveModules c₁ host) n = some none := by
      rw [effectiveModules_get_ne c₁ host n h₁]; exact hget
    simp only [moduleStep, hc1]
    exact dictGet_dictPop_self _ n (nodup_keys_effectiveModules c₁ host hnd)

/-- Witness for C7 at a concrete host document `{git: null}`. -/
theorem c7_null_module_skipped_w :
    ((∀ d, (("git", d) : String × Option JValue) ∈
        ([] : List (String × Option JValue)) → d = none)
      ∧ invokedModules [("git", none)] = Except.ok ([], ["Module 'git' is set to null; skipping"])
      ∧ "git" ∉ (([] : List (String × JValue)).map Prod.fst))
    ∧ (((([("git", (none : Option JValue))]).map Prod.fst).Nodup
        ∧ dictGet [("git", (none : Option JValue))] "git" = some none)
      ∧ dictGet (effectiveModules [("git", some (JValue.obj []))]
          [("git", none)]) "git" = none) := by
  refine ⟨⟨fun d hd => absurd hd (List.not_mem_nil _), rfl, ?_⟩, ⟨⟨?_, rfl⟩, ?_⟩⟩
  · exact c7_null_module_skipped.2.1 "git" [] [] _
      (fun d hd => absurd hd (List.not_mem_nil _)) rfl
  · simp
  · exact c7_null_module_skipped.2.2 [] [] [("git", none)] "git" (JValue.obj [])
      (fun e he => absurd he (List.not_mem_nil _))
      (fun e he => absurd he (List.not_mem_nil _)) (by simp) rfl

/-- Claim C3 counterexample: for common config `{a: {b: 1}}` and host
config `{a: null}` the code keeps key `a` with value null (deepmerge's
type-conflict override), while the spec's recursive override rule removes
`a` entirely; and for `{a: [1]}` against `{a: [2]}` the code concatenates
the two sequences, while the spec's rule replaces the common sequence with
the host one. -/
theorem c3_override_cex :
    effectiveModules
        [("m", some (JValue.obj [("a", JValue.obj [("b", JValue.num 1)])]))]
        [("m", some (JValue.obj [("a", JValue.null)]))]
      = [("m", some (JValue.obj [("a", JValue.null)]))]
    ∧ specOverrideMerge (JValue.obj [("a", JValue.obj [("b", JValue.num 1)])])
        (JValue.obj [("a", JValue.null)]) = JValue.obj []
    ∧ JValue.obj [("a", JValue.null)] ≠ JValue.obj []
    ∧ effectiveModules
        [("m", some (JValue.obj [("a", JValue.arr [JValue.num 1])]))]
        [("m", some (JValue.obj [("a", JValue.arr [JValue.num 2])]))]
      = [("m", some (JValue.obj [("a", JValue.arr [JValue.num 1, JValue.num 2])]))]
    ∧ specOverrideMerge (JValue.obj [("a", JValue.arr [JValue.num 1])])
        (JValue.obj [("a", JValue.arr [JValue.num 2])])
      = JValue.obj [("a", JValue.arr [JValue.num 2])]
    ∧ JValue.obj [("a", JValue.arr [JValue.num 1, JValue.num 2])]
        ≠ JValue.obj [("a", JValue.arr [JValue.num 2])] := by
  refine ⟨?_, ?_, by simp, ?_, ?_, by simp⟩
  · simp [effectiveModules, moduleStep, alwaysMerge, mergeObj, dictGet, dictSet]
  · simp [specOverrideMerge, specOverrideObj, dictGet, JValue.isNull]
  · simp [effectiveModules, moduleStep, alwaysMerge, mergeObj, dictGet, dictSet]
  · simp [specOverrideMerge, specOverrideObj, dictGet, JValue.isNull]

/-- Claim C3 (amended): per module, a host value of null removes the
module from the effective set, a module absent from the host document
keeps the common value unchanged, and two mapping values are merged with
deepmerge's always-merge rule — under which two mappings merge
recursively per key, two sequences concatenate (common entries before
host entries), and any other host value, an explicit nested null
included, replaces the common value in place: a nested null is kept as a
null-valued key, not removed. -/
theorem c3_override_amended :
    (∀ (n : String) (gd : JValue) (host : List (String × Option JValue)),
      dictGet host n = none →
      effectiveModules [(n, some gd)] host = dictSet host n (some gd))
    ∧ (∀ (n : String) (gd : JValue) (host : List (String × Option JValue)),
      (host.map Prod.fst).Nodup → dictGet host n = some none →
      dictGet (effectiveModules [(n, some gd)] host) n = none)
    ∧ (∀ (n : String) (gd hd : JValue) (host : List (String × Option JValue)),
      dictGet host n = some (some hd) →
      effectiveModules [(n, some gd)] host = dictSet host n (some (alwaysMerge gd hd)))
    ∧ (∀ base nxt, alwaysMerge (JValue.obj base) (JValue.obj nxt)
        = JValue.obj (mergeObj base nxt))
    ∧ (∀ a b, alwaysMerge (JValue.arr a) (JValue.arr b) = JValue.arr (a ++ b))
    ∧ (∀ base k bv, dictGet base k = some bv →
        alwaysMerge (JValue.obj base) (JValue.obj [(k, JValue.null)])
          = JValue.obj (dictSet base k JValue.null))
    ∧ (∀ gd, alwaysMerge gd JValue.null = JValue.null)
    ∧ (∀ gd n, alwaysMerge gd (JValue.num n) = JValue.num n)
    ∧ (∀ gd s, alwaysMerge gd (JValue.str s) = JValue.str s)
    ∧ (∀ gd b, alwaysMerge gd (JValue.bool b) = JValue.bool b)
    ∧ (∀ gd b, gd.isArr = false → alwaysMerge gd (JValue.arr b) = JValue.arr b)
    ∧ (∀ gd b, gd.isObj = false → alwaysMerge gd (JValue.obj b) = JValue.obj b) := by
  have hnull : ∀ gd, alwaysMerge gd JValue.null = JValue.null := by
    intro gd; cases gd <;> simp [alwaysMerge]
  refine ⟨fun n gd host h => ?_, fun n gd host hnd h => ?_, fun n gd hd host h => ?_,
    fun base nxt => by simp [alwaysMerge], fun a b => by simp [alwaysMerge],
    fun base k bv h => ?_, hnull,
    fun gd n => by cases gd <;> simp [alwaysMerge],
    fun gd s => by cases gd <;> simp [alwaysMerge],
    fun gd b => by cases gd <;> simp [alwaysMerge],
    fun gd b hb => ?_, fun gd b hb => ?_⟩
  · simp [effectiveModules, moduleStep, h]
  · simp only [effectiveModules, List.foldl_cons, List.foldl_nil, moduleStep, h]
    exact dictGet_dictPop_self host n hnd
  · simp [effectiveModules, moduleStep, h]
  · simp [alwaysMerge, mergeObj, h, hnull]
  · cases gd <;> simp_all [JValue.isArr, alwaysMerge]
  · cases gd <;> simp_all [JValue.isObj, alwaysMerge]

/-- Witness for C3 (amended) at concrete configs. -/
theorem c3_override_amended_w :
    (dictGet ([] : List (String × Option JValue)) "m" = none
      ∧ effectiveModules [("m", some (JValue.num 1))] [] =
          dictSet [] "m" (some (JValue.num 1)))
    ∧ (dictGet [("m", some (JValue.num 2))] "m" = some (some (JValue.num 2))
      ∧ effectiveModules [("m", some (JValue.num 1))] [("m", some (JValue.num 2))] =
          dictSet [("m", some (JValue.num 2))] "m"
            (some (alwaysMerge (JValue.num 1) (JValue.num 2))))
    ∧ (dictGet [("a", JValue.num 1)] "a" = some (JValue.num 1)
      ∧ alwaysMerge (JValue.obj [("a", JValue.num 1)])
          (JValue.obj [("a", JValue.null)])
        = JValue.obj (dictSet [("a", JValue.num 1)] "a" JValue.null)) :=
  ⟨⟨rfl, c3_override_amended.1 "m" (JValue.num 1) [] rfl⟩,
   ⟨rfl, c3_override_amended.2.2.1 "m" (JValue.num 1) (JValue.num 2)
      [("m", some (JValue.num 2))] rfl⟩,
   ⟨rfl, c3_override_amended.2.2.2.2.2.1 [("a", JValue.num 1)] "a" (JValue.num 1) rfl⟩⟩

/-- Claim C2: for a set of files (one per module, in module-processing
order) whose paths all normalize to the same location, with at most one
specifying `contents`, aggregation succeeds and the single merged File
has the concatenation of every contributor's `append` entries in
module-processing order, the mode obtained by folding the default merge
policy (bitwise AND) over all contributing modes, and the `contents` of
the one contributor that specified it. -/
theorem c2_merge_same_path (normalize : String → Option String) (p : String)
    (f₀ : File) (fs : List File)
    (hall : ∀ f ∈ (f₀ :: fs), normalize f.path = some p)
    (hone : nSome (f₀ :: fs) ≤ 1) :
    ∃ M : File,
      aggregate normalize ((f₀ :: fs).map fun f => ("m", ⟨[f], []⟩))
        = Except.ok (⟨[(p, M)], []⟩, [])
      ∧ M.append = ((f₀ :: fs).map File.append).flatten
      ∧ M.mode = fs.foldl (fun a f => mode_merge a f.mode false) f₀.mode
      ∧ ∀ g ∈ (f₀ :: fs), g.contents.isSome → M.contents = g.contents := by
  have hc : nSome (f₀ :: fs) =
      nSome fs + (if f₀.contents.isSome then 1 else 0) := by
    simp [nSome, List.countP_cons]
  refine ⟨fs.foldl mergeFile f₀, ?_, ?_, foldl_mergeFile_mode f₀ fs, ?_⟩
  · have h0 : aggFile normalize "m" ((⟨[], []⟩ : Plan), []) f₀ =
        Except.ok (⟨[(p, f₀)], []⟩, []) := by
      simp [aggFile, hall f₀ (List.mem_cons_self _ _), dictGet]
    have hone' : (if f₀.contents.isSome then 1 else 0) + nSome fs ≤ 1 := by
      omega
    rw [List.map_cons, aggregate, List.foldlM_cons, aggModule_single, h0]
    exact agg_same_path normalize p fs f₀ []
      (fun f hf => hall f (List.mem_cons_of_mem _ hf)) hone'
  · rw [foldl_mergeFile_append]; simp
  · intro g hg hgs
    rcases List.mem_cons.mp hg with h1 | h1
    · subst h1
      have hfs : ∀ x ∈ fs, x.contents.isSome = false := by
        intro x hx
        cases hxx : x.contents.isSome with
        | false => rfl
        | true =>
          exfalso
          have h2 : 0 < nSome fs := List.countP_pos_iff.mpr ⟨x, hx, hxx⟩
          rw [hc, if_pos hgs] at hone
          omega
      exact foldl_mergeFile_contents_none g fs hfs
    · refine foldl_mergeFile_contents_some fs g f₀ h1 hgs ?_
      omega

/-- Witness for C2: two modules, one file each at the same normalized
path `conf`, the first with contents, append `[p1]`, mode `0o644`, the
second append-only with append `[p2]`, mode `0o640`. -/
theorem c2_merge_same_path_w :
    (∀ f ∈ [(⟨"a", some (Resource.inline "c"), [Resource.inline "p1"], 420⟩ : File),
            ⟨"b", none, [Resource.inline "p2"], 416⟩],
      (fun _ => some "conf") f.path = some "conf")
    ∧ nSome [⟨"a", some (Resource.inline "c"), [Resource.inline "p1"], 420⟩,
            ⟨"b", none, [Resource.inline "p2"], 416⟩] ≤ 1
    ∧ ∃ M : File,
      aggregate (fun _ => some "conf")
          ([(⟨"a", some (Resource.inline "c"), [Resource.inline "p1"], 420⟩ : File),
            ⟨"b", none, [Resource.inline "p2"], 416⟩].map fun f => ("m", ⟨[f], []⟩))
        = Except.ok (⟨[("conf", M)], []⟩, [])
      ∧ M.append = ([(⟨"a", some (Resource.inline "c"), [Resource.inline "p1"], 420⟩ : File),
            ⟨"b", none, [Resource.inline "p2"], 416⟩].map File.append).flatten
      ∧ M.mode = [(⟨"b", none, [Resource.inline "p2"], 416⟩ : File)].foldl
          (fun a f => mode_merge a f.mode false)
          (⟨"a", some (Resource.inline "c"), [Resource.inline "p1"], 420⟩ : File).mode
      ∧ ∀ g ∈ [(⟨"a", some (Resource.inline "c"), [Resource.inline "p1"], 420⟩ : File),
            ⟨"b", none, [Resource.inline "p2"], 416⟩],
          g.contents.isSome → M.contents = g.contents :=
  ⟨fun f _ => rfl, by decide,
    c2_merge_same_path (fun _ => some "conf") "conf"
      ⟨"a", some (Resource.inline "c"), [Resource.inline "p1"], 420⟩
      [⟨"b", none, [Resource.inline "p2"], 416⟩]
      (fun f _ => rfl) (by decide)⟩

end Dotfiles
